import Mathlib

/-!
# download-images.js: the scan phase, the filename resolver, the fetcher and the scheduler

A shallow embedding of `src/download-images.js`.  JavaScript strings are lists of
UTF-16 code units, the output directory is the list of the names of its entries,
the network is a function from a URL to what the request to it produces.
-/

namespace DownloadImages

/-! ## Strings -/

/-- A JavaScript string, as the list of its UTF-16 code units. -/
abbrev JSString := List Nat

/-- The code units of an ASCII literal of the source. -/
def lit (s : String) : JSString := s.toList.map Char.toNat

/-- The code units `String.prototype.trim` strips: ECMAScript WhiteSpace and
LineTerminator. -/
def isWhiteSpace (c : Nat) : Bool :=
  c = 9 || c = 10 || c = 11 || c = 12 || c = 13 || c = 32 || c = 160 || c = 5760 ||
  (8192 ≤ c && c ≤ 8202) || c = 8232 || c = 8233 || c = 8239 || c = 8287 ||
  c = 12288 || c = 65279

/-- The method `s.trim()`. -/
def trim (s : JSString) : JSString :=
  ((s.dropWhile isWhiteSpace).reverse.dropWhile isWhiteSpace).reverse

/-- The method `s.split(sep)` for a separator of one code unit. -/
def split (sep : Nat) : JSString → List JSString
  | [] => [[]]
  | c :: cs =>
    if c = sep then [] :: split sep cs
    else
      match split sep cs with
      | [] => [[c]]
      | f :: fs => (c :: f) :: fs

/-- One code unit of `s.toLowerCase()`: `A`..`Z` go to `a`..`z`.  The case tables
for the code units above 127 are left out: the source only searches the lowered
string for `.jpg`, `http`, `www` and `www.`, and no code unit above 127 lowers to
one of `.`, `g`, `h`, `j`, `p`, `t`, `w`. -/
def lowerUnit (c : Nat) : Nat := if 65 ≤ c ∧ c ≤ 90 then c + 32 else c

/-- The method `s.toLowerCase()`, see `lowerUnit`. -/
def toLowerCase (s : JSString) : JSString := s.map lowerUnit

/-- The method `s.startsWith(p)`. -/
def startsWith (s p : JSString) : Bool := p.isPrefixOf s

/-- The method `s.includes(p)`. -/
def includes : JSString → JSString → Bool
  | [], p => p.isPrefixOf []
  | c :: cs, p => p.isPrefixOf (c :: cs) || includes cs p

/-- The method `s.lastIndexOf(c)` for one code unit `c`; `none` stands for `-1`. -/
def lastIndexOf : JSString → Nat → Option Nat
  | [], _ => none
  | x :: xs, c =>
    match lastIndexOf xs c with
    | some i => some (i + 1)
    | none => if x = c then some 0 else none

/-- The loop of `toDecimal`: the digits of `n` are put in front of `acc`. -/
def decimalAux : Nat → Nat → JSString → JSString
  | 0, _, acc => acc
  | fuel + 1, n, acc =>
    if n < 10 then (48 + n) :: acc
    else decimalAux fuel (n / 10) ((48 + n % 10) :: acc)

/-- What a template literal prints for a non-negative integer: its decimal digits. -/
def toDecimal (n : Nat) : JSString := decimalAux (n + 1) n []

/-- Node's posix `path.basename(p)`: going back from the end, the separators at
the end are passed over, and the result is what stands before them up to the
separator before it. -/
def basename (p : JSString) : JSString :=
  ((p.reverse.dropWhile (fun c => c = 47)).takeWhile (fun c => c ≠ 47)).reverse

/-! ## Configuration -/

/-- The constant `delimiter`: the tab. -/
def delimiter : Nat := 9

/-- The constant `outputDir`. -/
def outputDir : JSString := lit "/workspaces/image-to-text-AI/downloaded_images"

/-- The directory `outputDir` is in. -/
def workDir : JSString := lit "/workspaces/image-to-text-AI"

/-- The constant `CONCURRENCY`. -/
def CONCURRENCY : Nat := 5

/-! ## The output directory -/

/-- The path `path.join(outputDir, name)` for a name without `/`: the empty name and `.`
give the directory itself, `..` the directory it is in. -/
def joinOutputDir (name : JSString) : JSString :=
  if name = [] ∨ name = lit "." then outputDir
  else if name = lit ".." then workDir
  else outputDir ++ 47 :: name

/-- The test `fs.existsSync(p)` when the entries of the output directory are `dir`: the
script has created the output directory before the scan, so it and the
directory it is in exist. -/
def existsSync (dir : List JSString) (p : JSString) : Bool :=
  p = outputDir || p = workDir || dir.any (fun n => decide (outputDir ++ 47 :: n = p))

/-! ## The scan phase of `processCSV` -/

/-- A DownloadTask, as pushed to `downloadQueue`. -/
structure DownloadTask where
  url : JSString
  path : JSString
  line : Nat
deriving DecidableEq

/-- The state of the scan: `foundUrls` in insertion order, `lineCount`,
`downloadQueue`. -/
structure ScanState where
  foundUrls : List JSString
  lineCount : Nat
  downloadQueue : List DownloadTask
deriving DecidableEq

/-- The value `column.trim().replace(/"/g, '')`. -/
def trimmedValueOf (column : JSString) : JSString :=
  (trim column).filter (fun c => c ≠ 34)

/-- The acceptance test of a field (lines 183-185). -/
def isImageField (trimmedValue : JSString) : Bool :=
  includes (toLowerCase trimmedValue) (lit ".jpg") &&
    (startsWith (toLowerCase trimmedValue) (lit "http") ||
     startsWith (toLowerCase trimmedValue) (lit "www"))

/-- The normalization of an accepted field (lines 188-191). -/
def normalizeUrl (trimmedValue : JSString) : JSString :=
  if startsWith (toLowerCase trimmedValue) (lit "www.") then
    lit "https://" ++ trimmedValue
  else trimmedValue

/-- The class `[a-zA-Z0-9._-]`. -/
def isSafeUnit (c : Nat) : Bool :=
  (97 ≤ c && c ≤ 122) || (65 ≤ c && c ≤ 90) || (48 ≤ c && c ≤ 57) ||
  c = 46 || c = 95 || c = 45

/-- The value `filename.replace(/[^a-zA-Z0-9._-]/g, '_')`. -/
def sanitize (filename : JSString) : JSString :=
  filename.map (fun c => if isSafeUnit c then c else 95)

/-- The filename before the uniqueness loop (lines 198-204). -/
def baseFilename (imageUrl : JSString) : JSString :=
  let filename := (split 63 (basename imageUrl)).headD []
  let filename := sanitize filename
  if filename.length > 200 then filename.take 200 else filename

/-- The name the loop body builds from `filename` and `fileCounter`
(lines 210-215). -/
def suffixed (filename : JSString) (fileCounter : Nat) : JSString :=
  match lastIndexOf filename 46 with
  | none => filename ++ 95 :: toDecimal fileCounter
  | some extIndex =>
    filename.take extIndex ++ 95 :: toDecimal fileCounter ++ filename.drop extIndex

/-- The `while` loop of lines 209-217, from a state `(fileCounter, uniqueFilename)`;
`none` when the fuel runs out before the loop ends.  `fileCounter` is a natural
number: the source's counter is exact below `2^53`. -/
def uniqueLoop (dir : List JSString) (filename : JSString) :
    Nat → Nat → JSString → Option JSString
  | 0, _, _ => none
  | fuel + 1, fileCounter, uniqueFilename =>
    if existsSync dir (joinOutputDir uniqueFilename) then
      uniqueLoop dir filename fuel (fileCounter + 1) (suffixed filename fileCounter)
    else some uniqueFilename

/-- Lines 207-217: the loop from `fileCounter = 1`, `uniqueFilename = filename`,
with the fuel that `uniqueLoop_enough_fuel` shows to be enough. -/
def uniqueFilenameOf (dir : List JSString) (filename : JSString) : Option JSString :=
  uniqueLoop dir filename (dir.length + 2) 1 filename

/-- The body of the loop over the columns of a line (lines 181-228). -/
def scanColumn (dir : List JSString) (st : ScanState) (column : JSString) :
    Option ScanState :=
  let trimmedValue := trimmedValueOf column
  if isImageField trimmedValue then
    let imageUrl := normalizeUrl trimmedValue
    if imageUrl ∉ st.foundUrls then
      match uniqueFilenameOf dir (baseFilename imageUrl) with
      | none => none
      | some uniqueFilename =>
        some { foundUrls := st.foundUrls ++ [imageUrl]
               lineCount := st.lineCount
               downloadQueue := st.downloadQueue ++
                 [{ url := imageUrl, path := joinOutputDir uniqueFilename,
                    line := st.lineCount }] }
    else some st
  else some st

/-- The body of the loop over the lines (lines 171-229). -/
def scanLine (dir : List JSString) (st : ScanState) (line : JSString) :
    Option ScanState :=
  let st1 : ScanState := { st with lineCount := st.lineCount + 1 }
  if trim line = [] then some st1
  else (split delimiter line).foldlM (scanColumn dir) st1

/-- The scan phase (lines 165-230) over the lines of the input file. -/
def scan (dir : List JSString) (lines : List JSString) : Option ScanState :=
  lines.foldlM (scanLine dir) { foundUrls := [], lineCount := 0, downloadQueue := [] }

/-! ## `downloadImage` -/

/-- What a `downloadImage` promise resolves with; a field the source leaves out
of the object is `false` or `none` here. -/
structure DownloadResult where
  skipped : Bool
  success : Bool
  status : Option Nat
  reason : Option JSString
  error : Option JSString
  url : Option JSString
  size : Option Nat
deriving DecidableEq

/-- How the piping of a 200 response into the file ends: the `finish` event
after the bytes named were written, or the `error` event of the file. -/
inductive StreamEnd where
  | finish (written : List Nat)
  | writeError (message : JSString)
deriving DecidableEq

/-- What the request to a URL produces: a response (status, `Location` header,
how streaming the body ends), the `error` event or the `timeout` event.  A URL
that `protocol.get` refuses, so that the promise is rejected, has no event here. -/
inductive NetEvent where
  | response (statusCode : Nat) (location : Option JSString) (stream : StreamEnd)
  | requestError (message : JSString)
  | timeout
deriving DecidableEq

/-- The files, by path, with their bytes. -/
abbrev FileSystem := JSString → Option (List Nat)

/-- The file at `p` is created or replaced with `bytes`. -/
def writeFile (fs : FileSystem) (p : JSString) (bytes : List Nat) : FileSystem :=
  fun q => if q = p then some bytes else fs q

/-- The call `fs.unlink(p)`. -/
def unlink (fs : FileSystem) (p : JSString) : FileSystem :=
  fun q => if q = p then none else fs q

/-- The call `fs.stat(p)`: the size, `none` for the error. -/
def statSize (fs : FileSystem) (p : JSString) : Option Nat := (fs p).map List.length

/-- The test `response.headers.location` of line 46. -/
def hasLocation : Option JSString → Bool
  | some (_ :: _) => true
  | _ => false

/-- The call `downloadImage(imageUrl, filepath)` on the files `fs`: the result the promise
resolves with and the files left.  The fuel bounds the redirects followed; `none`
when it runs out. -/
def downloadImage (net : JSString → NetEvent) :
    Nat → JSString → JSString → FileSystem → Option (DownloadResult × FileSystem)
  | 0, _, _, _ => none
  | fuel + 1, imageUrl, filepath, fs =>
    if includes imageUrl (lit "commons.wikimedia.org/wiki/File:") then
      some ({ skipped := true, success := false, status := none,
              reason := some (lit "Not a direct image link"), error := none,
              url := none, size := none }, fs)
    else
      let fs1 := writeFile fs filepath []
      match net imageUrl with
      | .response statusCode location stream =>
        if (statusCode = 301 ∨ statusCode = 302 ∨ statusCode = 307) ∧
            hasLocation location = true then
          downloadImage net fuel (location.getD []) filepath fs1
        else if statusCode ≠ 200 then
          some ({ skipped := false, success := false, status := some statusCode,
                  reason := none, error := none, url := some imageUrl, size := none },
                unlink fs1 filepath)
        else
          match stream with
          | .finish written =>
            let fs2 := writeFile fs1 filepath written
            match statSize fs2 filepath with
            | some (n + 1) =>
              some ({ skipped := false, success := true, status := none, reason := none,
                      error := none, url := some imageUrl, size := some (n + 1) }, fs2)
            | _ =>
              some ({ skipped := false, success := false, status := none,
                      reason := some (lit "Empty file"), error := none,
                      url := some imageUrl, size := none }, unlink fs2 filepath)
          | .writeError message =>
            some ({ skipped := false, success := false, status := none,
                    reason := some (lit "File write error"), error := some message,
                    url := some imageUrl, size := none }, unlink fs1 filepath)
      | .requestError message =>
        some ({ skipped := false, success := false, status := none,
                reason := some (lit "Request error"), error := some message,
                url := some imageUrl, size := none }, unlink fs1 filepath)
      | .timeout =>
        some ({ skipped := false, success := false, status := none,
                reason := some (lit "Timeout"), error := none,
                url := some imageUrl, size := none }, unlink fs1 filepath)

/-! ## The batch loop of `processCSV` -/

/-- The counters `results`. -/
structure Results where
  success : Nat
  failed : Nat
  skipped : Nat
deriving DecidableEq

/-- The `then` callback of lines 248-257. -/
def tally (results : Results) (result : DownloadResult) : Results :=
  if result.skipped then { results with skipped := results.skipped + 1 }
  else if result.success then { results with success := results.success + 1 }
  else { results with failed := results.failed + 1 }

/-- The value `queue.slice(a, b)` for `a ≤ b`. -/
def slice {α : Type} (queue : List α) (a b : Nat) : List α := (queue.take b).drop a

/-- What becomes of the promise of a `downloadImage` call: it resolves with a
result, it is rejected (the executor of line 22 throws, or the rejection of a
followed redirect is passed on at line 55), or it never settles. -/
inductive Settlement where
  | resolved (result : DownloadResult)
  | rejected
  | pending
deriving DecidableEq

/-- How the batch loop ends: after the last batch, through the `catch` of line 276
when `await Promise.all` throws, or never, when the `await` does not return. -/
inductive LoopEnd where
  | completed
  | aborted
  | hung
deriving DecidableEq

/-- The `await Promise.all(batchPromises)` of line 260 over the promises of a
batch in the order in which they settle: the callback of lines 248-257 counts each
result; the first rejection makes the `await` throw, and what settles after it is
not counted here (no line reads the counters after the `catch`); without a
rejection, a promise that never settles keeps the `await` from returning. -/
def awaitAll {α : Type} (fetch : α → Settlement) :
    List α → Results → Bool → Results × LoopEnd
  | [], results, unsettled =>
    (results, if unsettled then LoopEnd.hung else LoopEnd.completed)
  | item :: rest, results, unsettled =>
    match fetch item with
    | .resolved result => awaitAll fetch rest (tally results result) unsettled
    | .rejected => (results, LoopEnd.aborted)
    | .pending => awaitAll fetch rest results true

/-- What the batch loop has done so far: the counters, the batches issued, the
numbers of the progress lines, and how the loop ended. -/
structure RunState (α : Type) where
  results : Results
  batches : List (List α)
  progress : List Nat
  ended : LoopEnd

/-- The `for` loop of lines 244-264 from index `i`.  `fetch item` is what becomes
of the `downloadImage` promise of `item`, `settle batch` the order in which the
promises of a batch settle.  When the `await` of a batch throws or does not
return, no further batch is issued and no progress line is printed. -/
def batchLoop {α : Type} (fetch : α → Settlement) (settle : List α → List α)
    (queue : List α) (i : Nat) (st : RunState α) : RunState α :=
  if i < queue.length then
    let batch := slice queue i (i + CONCURRENCY)
    let awaited := awaitAll fetch (settle batch) st.results false
    if awaited.2 = LoopEnd.completed then
      batchLoop fetch settle queue (i + CONCURRENCY)
        { results := awaited.1
          batches := st.batches ++ [batch]
          progress := st.progress ++ [i + batch.length]
          ended := LoopEnd.completed }
    else
      { results := awaited.1
        batches := st.batches ++ [batch]
        progress := st.progress
        ended := awaited.2 }
  else st
termination_by queue.length - i
decreasing_by
  simp only [CONCURRENCY]
  omega

/-- The batch loop from its start (lines 237-264). -/
def runBatches {α : Type} (fetch : α → Settlement) (settle : List α → List α)
    (queue : List α) : RunState α :=
  batchLoop fetch settle queue 0
    { results := { success := 0, failed := 0, skipped := 0 }, batches := [], progress := [],
      ended := LoopEnd.completed }

/-! ## The words of the specification -/

/-- The accepted fields of a line, normalized, in the order of the scan. -/
def candidatesOfLine (line : JSString) : List JSString :=
  (((split delimiter line).map trimmedValueOf).filter isImageField).map normalizeUrl

/-- The accepted normalized URLs of the input, in the order of the scan. -/
def candidates (lines : List JSString) : List JSString :=
  lines.flatMap candidatesOfLine

/-- The set `foundUrls`, in insertion order, after `u` is met (lines 194-195). -/
def addNew (seen : List JSString) (u : JSString) : List JSString :=
  if u ∈ seen then seen else seen ++ [u]

/-- The first occurrences of a list, in order. -/
def firsts : List JSString → List JSString
  | [] => []
  | u :: us => u :: (firsts us).filter (fun v => v ≠ u)

/-- The base filename as the specification words it: the final segment without
what follows the first `?`, every code unit outside `[A-Za-z0-9._-]` replaced by
`_`, cut to 200. -/
def specBaseFilename (segment : JSString) : JSString :=
  (((segment.takeWhile (fun c => c ≠ 63)).map
    (fun c => if (97 ≤ c ∧ c ≤ 122) ∨ (65 ≤ c ∧ c ≤ 90) ∨ (48 ≤ c ∧ c ≤ 57) ∨
      c = 46 ∨ c = 95 ∨ c = 45 then c else 95))).take 200

/-! ## Decimal numerals and the names of the loop -/

theorem decimalAux_eq_digits : ∀ (fuel n : Nat) (acc : JSString), n < fuel → 0 < n →
    decimalAux fuel n acc = ((Nat.digits 10 n).reverse.map (fun d => 48 + d)) ++ acc := by
  intro fuel
  induction fuel with
  | zero => intro n acc h; omega
  | succ fuel ih =>
    intro n acc hlt hpos
    unfold decimalAux
    by_cases h10 : n < 10
    · rw [if_pos h10, Nat.digits_of_lt 10 n (by omega) h10]
      simp
    · rw [if_neg h10, ih (n / 10) _ (by omega) (by omega),
        Nat.digits_def' (by norm_num) hpos]
      simp

theorem toDecimal_eq_digits (n : Nat) (h : 0 < n) :
    toDecimal n = (Nat.digits 10 n).reverse.map (fun d => 48 + d) := by
  unfold toDecimal
  rw [decimalAux_eq_digits (n + 1) n [] (by omega) h]
  simp

theorem toDecimal_value (n : Nat) :
    Nat.ofDigits 10 ((toDecimal n).reverse.map (fun c => c - 48)) = n := by
  rcases Nat.eq_zero_or_pos n with h | h
  · subst h
    decide
  · rw [toDecimal_eq_digits n h, ← List.map_reverse, List.reverse_reverse, List.map_map]
    have : ((fun c => c - 48) ∘ fun d => 48 + d) = (id : Nat → Nat) := by
      funext d
      simp
    rw [this, List.map_id, Nat.ofDigits_digits]

theorem toDecimal_injective {a b : Nat} (h : toDecimal a = toDecimal b) : a = b := by
  have ha := toDecimal_value a
  rw [h, toDecimal_value b] at ha
  exact ha.symm

theorem suffixed_injective (filename : JSString) {a b : Nat}
    (h : suffixed filename a = suffixed filename b) : a = b := by
  unfold suffixed at h
  split at h
  · exact toDecimal_injective (List.cons.inj (List.append_cancel_left h)).2
  · exact toDecimal_injective
      (List.cons.inj (List.append_cancel_left (List.append_cancel_right h))).2

theorem underscore_mem_suffixed (filename : JSString) (k : Nat) :
    95 ∈ suffixed filename k := by
  unfold suffixed
  split <;> simp

/-! ## Presence in the output directory -/

theorem existsSync_join (dir : List JSString) (name : JSString) :
    existsSync dir (joinOutputDir name) = true ↔
      (name = [] ∨ name = lit "." ∨ name = lit ".." ∨ name ∈ dir) := by
  have hout : outputDir.length = 46 := by decide
  have hwork : workDir.length = 28 := by decide
  unfold joinOutputDir
  by_cases h1 : name = [] ∨ name = lit "."
  · rw [if_pos h1]
    simp only [existsSync, decide_True, Bool.true_or, true_iff]
    tauto
  · rw [if_neg h1]
    by_cases h2 : name = lit ".."
    · rw [if_pos h2]
      simp only [existsSync, decide_True, Bool.true_or, Bool.or_true, true_iff]
      tauto
    · rw [if_neg h2]
      have ha : outputDir ++ 47 :: name ≠ outputDir := by
        intro h
        have := congrArg List.length h
        simp at this
      have hb : outputDir ++ 47 :: name ≠ workDir := by
        intro h
        have := congrArg List.length h
        rw [List.length_append, hout, hwork] at this
        omega
      simp only [existsSync, ha, hb, decide_False, Bool.false_or, List.any_eq_true,
        decide_eq_true_eq]
      constructor
      · rintro ⟨n, hn, he⟩
        have : n = name := (List.cons.inj (List.append_cancel_left he)).2
        subst this
        tauto
      · intro h
        rcases h with h | h | h | h
        · exact absurd (Or.inl h) h1
        · exact absurd (Or.inr h) h1
        · exact absurd h h2
        · exact ⟨name, h, rfl⟩

theorem existsSync_suffixed (dir : List JSString) (filename : JSString) (k : Nat) :
    existsSync dir (joinOutputDir (suffixed filename k)) = true ↔
      suffixed filename k ∈ dir := by
  rw [existsSync_join]
  have hu := underscore_mem_suffixed filename k
  constructor
  · intro h
    rcases h with h | h | h | h
    · rw [h] at hu
      simp at hu
    · rw [h] at hu
      exact absurd hu (by decide)
    · rw [h] at hu
      exact absurd hu (by decide)
    · exact h
  · intro h
    exact Or.inr (Or.inr (Or.inr h))

theorem joinOutputDir_of_free (dir : List JSString) (name : JSString)
    (h : existsSync dir (joinOutputDir name) = false) :
    joinOutputDir name = outputDir ++ 47 :: name ∧ name ∉ dir := by
  have hn : ¬ (name = [] ∨ name = lit "." ∨ name = lit ".." ∨ name ∈ dir) := by
    rw [← existsSync_join, h]
    simp
  refine ⟨?_, fun hm => hn (Or.inr (Or.inr (Or.inr hm)))⟩
  unfold joinOutputDir
  rw [if_neg (fun h1 => hn (by tauto)), if_neg (fun h2 => hn (by tauto))]

/-- Among the first `dir.length + 1` suffixed names one is not in the directory. -/
theorem exists_free_suffixed (dir : List JSString) (filename : JSString) :
    ∃ k, 1 ≤ k ∧ k ≤ dir.length + 1 ∧ suffixed filename k ∉ dir := by
  by_contra hcon
  push_neg at hcon
  have hnd : ((List.range (dir.length + 1)).map (fun i => suffixed filename (i + 1))).Nodup := by
    apply List.Nodup.map _ (List.nodup_range _)
    intro a b hab
    have := suffixed_injective filename hab
    omega
  have hsub : (List.range (dir.length + 1)).map (fun i => suffixed filename (i + 1)) ⊆ dir := by
    intro x hx
    rcases List.mem_map.1 hx with ⟨i, hi, rfl⟩
    have hi2 := List.mem_range.1 hi
    exact hcon (i + 1) (by omega) (by omega)
  have := (List.subperm_of_subset hnd hsub).length_le
  simp at this

/-! ## The uniqueness loop -/

theorem lastIndexOf_eq_none {s : JSString} {c : Nat} (h : c ∉ s) : lastIndexOf s c = none := by
  induction s with
  | nil => rfl
  | cons x xs ih =>
    have hx : ¬ x = c := fun e => h (by simp [e])
    have hxs : c ∉ xs := fun e => h (by simp [e])
    simp [lastIndexOf, ih hxs, hx]

theorem lastIndexOf_append (stem ext : JSString) (c : Nat) (h : c ∉ ext) :
    lastIndexOf (stem ++ c :: ext) c = some stem.length := by
  induction stem with
  | nil => simp [lastIndexOf, lastIndexOf_eq_none h]
  | cons x xs ih => simp [lastIndexOf, ih]

theorem suffixed_of_no_dot (filename : JSString) (k : Nat) (h : 46 ∉ filename) :
    suffixed filename k = filename ++ 95 :: toDecimal k := by
  simp [suffixed, lastIndexOf_eq_none h]

theorem suffixed_of_dot (stem ext : JSString) (k : Nat) (h : 46 ∉ ext) :
    suffixed (stem ++ 46 :: ext) k = stem ++ 95 :: toDecimal k ++ 46 :: ext := by
  simp [suffixed, lastIndexOf_append stem ext 46 h]

theorem uniqueLoop_run (dir : List JSString) (filename : JSString) :
    ∀ (j c fuel : Nat) (u : JSString), j < fuel →
      existsSync dir (joinOutputDir u) = true →
      (∀ i, i < j → existsSync dir (joinOutputDir (suffixed filename (c + i))) = true) →
      existsSync dir (joinOutputDir (suffixed filename (c + j))) = false →
      uniqueLoop dir filename (fuel + 1) c u = some (suffixed filename (c + j)) := by
  intro j
  induction j with
  | zero =>
    intro c fuel u hf hu _ hfree
    obtain ⟨fuel, rfl⟩ : ∃ m, fuel = m + 1 := ⟨fuel - 1, by omega⟩
    simp only [Nat.add_zero] at hfree
    simp [uniqueLoop, hu, hfree]
  | succ j ih =>
    intro c fuel u hf hu hall hfree
    obtain ⟨fuel, rfl⟩ : ∃ m, fuel = m + 1 := ⟨fuel - 1, by omega⟩
    have h0 := hall 0 (by omega)
    rw [Nat.add_zero] at h0
    have step : uniqueLoop dir filename (fuel + 1 + 1) c u =
        uniqueLoop dir filename (fuel + 1) (c + 1) (suffixed filename c) := by
      rw [uniqueLoop, if_pos hu]
    rw [step, ih (c + 1) fuel (suffixed filename c) (by omega) h0]
    · rw [Nat.add_right_comm c 1 j, Nat.add_assoc]
    · intro i hi
      have := hall (i + 1) (by omega)
      rwa [Nat.add_right_comm c 1 i, Nat.add_assoc]
    · rwa [Nat.add_right_comm c 1 j, Nat.add_assoc]

/-- With fuel `dir.length + 2` or more the loop ends: on the base name when it is
free, otherwise on the first free suffixed name. -/
theorem uniqueLoop_enough_fuel (dir : List JSString) (filename : JSString) (fuel : Nat)
    (hfuel : dir.length + 2 ≤ fuel) :
    ∃ name, uniqueLoop dir filename fuel 1 filename = some name ∧
      existsSync dir (joinOutputDir name) = false ∧
      (existsSync dir (joinOutputDir filename) = false → name = filename) ∧
      (existsSync dir (joinOutputDir filename) = true →
        ∃ k, 1 ≤ k ∧ k ≤ dir.length + 1 ∧ name = suffixed filename k ∧
          ∀ j, 1 ≤ j → j < k →
            existsSync dir (joinOutputDir (suffixed filename j)) = true) := by
  obtain ⟨fuel, rfl⟩ : ∃ m, fuel = m + 1 := ⟨fuel - 1, by omega⟩
  cases hbase : existsSync dir (joinOutputDir filename) with
  | false =>
    refine ⟨filename, ?_, hbase, fun _ => rfl, fun h => by simp at h⟩
    simp [uniqueLoop, hbase]
  | true =>
    have hex : ∃ k, 1 ≤ k ∧ existsSync dir (joinOutputDir (suffixed filename k)) = false := by
      obtain ⟨k, h1, _, h3⟩ := exists_free_suffixed dir filename
      refine ⟨k, h1, ?_⟩
      rw [← Bool.not_eq_true, existsSync_suffixed]
      exact h3
    have hk := Nat.find_spec hex
    have hmin : ∀ j, 1 ≤ j → j < Nat.find hex →
        existsSync dir (joinOutputDir (suffixed filename j)) = true := by
      intro j h1 hj
      have := Nat.find_min hex hj
      simp only [not_and, Bool.not_eq_false] at this
      exact this h1
    have hle : Nat.find hex ≤ dir.length + 1 := by
      obtain ⟨k, h1, h2, h3⟩ := exists_free_suffixed dir filename
      refine le_trans (Nat.find_min' hex ⟨h1, ?_⟩) h2
      rw [← Bool.not_eq_true, existsSync_suffixed]
      exact h3
    have hrun := uniqueLoop_run dir filename (Nat.find hex - 1) 1 fuel filename (by omega) hbase
      (fun i hi => hmin (1 + i) (by omega) (by omega))
      (by rw [show 1 + (Nat.find hex - 1) = Nat.find hex by omega]; exact hk.2)
    rw [show 1 + (Nat.find hex - 1) = Nat.find hex by omega] at hrun
    exact ⟨suffixed filename (Nat.find hex), hrun, hk.2, fun h => by simp at h,
      fun _ => ⟨Nat.find hex, hk.1, hle, rfl, hmin⟩⟩

/-- Claim C6.  The uniqueness loop of the Filename Resolver ends for every base
name and every directory listing: with fuel `dir.length + 2` or more it returns a
name that does not exist in the output directory.  The name is the base name when
that is free, and otherwise the first free name among `suffixed filename 1`,
`suffixed filename 2`, ..., where the suffix `_k` stands before the last `.` of
the base name, or at its end when it has no `.`. -/
theorem resolver_returns_first_free_name (dir : List JSString) (filename : JSString)
    (fuel : Nat) (hfuel : dir.length + 2 ≤ fuel) :
    ∃ name, uniqueLoop dir filename fuel 1 filename = some name ∧
      existsSync dir (joinOutputDir name) = false ∧ name ∉ dir ∧
      (existsSync dir (joinOutputDir filename) = false → name = filename) ∧
      (existsSync dir (joinOutputDir filename) = true →
        ∃ k, 1 ≤ k ∧ k ≤ dir.length + 1 ∧ name = suffixed filename k ∧
          ∀ j, 1 ≤ j → j < k →
            existsSync dir (joinOutputDir (suffixed filename j)) = true) ∧
      (∀ k stem ext, filename = stem ++ 46 :: ext → 46 ∉ ext →
        suffixed filename k = stem ++ 95 :: toDecimal k ++ 46 :: ext) ∧
      (∀ k, 46 ∉ filename → suffixed filename k = filename ++ 95 :: toDecimal k) ∧
      (∀ k, Nat.ofDigits 10 ((toDecimal k).reverse.map (fun c => c - 48)) = k) := by
  obtain ⟨name, h1, h2, h3, h4⟩ := uniqueLoop_enough_fuel dir filename fuel hfuel
  refine ⟨name, h1, h2, (joinOutputDir_of_free dir name h2).2, h3, h4, ?_, ?_, toDecimal_value⟩
  · intro k stem ext he hext
    rw [he]
    exact suffixed_of_dot stem ext k hext
  · intro k hk
    exact suffixed_of_no_dot filename k hk

/-- The loop on `photo.jpg` in a directory that holds `photo.jpg` and
`photo_1.jpg`: the name returned is `photo_2.jpg`, which the directory lacks. -/
theorem resolver_returns_first_free_name_witness :
    [lit "photo.jpg", lit "photo_1.jpg"].length + 2 ≤ 4 ∧
    uniqueLoop [lit "photo.jpg", lit "photo_1.jpg"] (lit "photo.jpg") 4 1 (lit "photo.jpg") =
      some (lit "photo_2.jpg") ∧
    ∃ name, uniqueLoop [lit "photo.jpg", lit "photo_1.jpg"] (lit "photo.jpg") 4 1
        (lit "photo.jpg") = some name ∧
      name ∉ [lit "photo.jpg", lit "photo_1.jpg"] := by
  refine ⟨by decide, by decide, ?_⟩
  obtain ⟨name, h1, -, h3, -⟩ :=
    resolver_returns_first_free_name [lit "photo.jpg", lit "photo_1.jpg"] (lit "photo.jpg") 4
      (by decide)
  exact ⟨name, h1, h3⟩

/-! ## First occurrences -/

theorem mem_firsts {u : JSString} : ∀ {l : List JSString}, u ∈ firsts l ↔ u ∈ l
  | [] => by simp [firsts]
  | v :: vs => by
    by_cases h : u = v
    · simp [firsts, h]
    · simp [firsts, h, List.mem_filter, mem_firsts (l := vs)]

theorem nodup_firsts : ∀ (l : List JSString), (firsts l).Nodup
  | [] => by simp [firsts]
  | v :: vs => by
    rw [firsts, List.nodup_cons]
    refine ⟨?_, (nodup_firsts vs).filter _⟩
    simp [List.mem_filter]

theorem firsts_pairwise_findIdx : ∀ (l : List JSString),
    (firsts l).Pairwise
      (fun a b => l.findIdx (fun x => decide (x = a)) < l.findIdx (fun x => decide (x = b)))
  | [] => by simp [firsts]
  | v :: vs => by
    rw [firsts, List.pairwise_cons]
    constructor
    · intro b hb
      have hne : ¬ v = b := by
        have := (List.mem_filter.1 hb).2
        intro e
        simp [e] at this
      simp [List.findIdx_cons, hne]
    · have hp : ((firsts vs).filter (fun w => w ≠ v)).Pairwise
          (fun a b => vs.findIdx (fun x => decide (x = a)) <
            vs.findIdx (fun x => decide (x = b))) :=
        (firsts_pairwise_findIdx vs).filter _
      refine List.Pairwise.imp_of_mem ?_ hp
      intro a b ha hb hab
      have hna : ¬ v = a := by
        have := (List.mem_filter.1 ha).2
        intro e
        simp [e] at this
      have hnb : ¬ v = b := by
        have := (List.mem_filter.1 hb).2
        intro e
        simp [e] at this
      simp only [List.findIdx_cons, hna, hnb, decide_False, cond_false]
      omega

theorem length_firsts (l : List JSString) : (firsts l).length = l.toFinset.card := by
  rw [← List.toFinset_card_of_nodup (nodup_firsts l)]
  congr 1
  ext u
  simp [mem_firsts]

theorem foldl_addNew : ∀ (l seen : List JSString),
    l.foldl addNew seen = seen ++ (firsts l).filter (fun u => u ∉ seen)
  | [], seen => by simp [firsts]
  | v :: vs, seen => by
    rw [List.foldl_cons, foldl_addNew vs]
    by_cases h : v ∈ seen
    · have e : addNew seen v = seen := by simp [addNew, h]
      rw [e]
      simp only [firsts, List.filter_cons, h, not_true_eq_false,
        decide_False, Bool.false_eq_true, if_false, List.filter_filter]
      congr 1
      apply List.filter_congr
      intro u _
      by_cases hu : u ∈ seen
      · simp [hu]
      · have : u ≠ v := fun e => hu (e ▸ h)
        simp [hu, this]
    · have e : addNew seen v = seen ++ [v] := by simp [addNew, h]
      rw [e]
      simp only [firsts, List.filter_cons, h, not_false_eq_true,
        decide_True, if_true, List.filter_filter, List.append_assoc, List.singleton_append]
      congr 2
      apply List.filter_congr
      intro u _
      by_cases hu : u ∈ seen <;> by_cases huv : u = v <;> simp [hu, huv]

theorem foldl_addNew_nil (l : List JSString) : l.foldl addNew [] = firsts l := by
  rw [foldl_addNew]
  simp

/-! ## The scan phase -/

theorem uniqueFilenameOf_free (dir : List JSString) (filename : JSString) :
    ∃ name, uniqueFilenameOf dir filename = some name ∧
      existsSync dir (joinOutputDir name) = false := by
  obtain ⟨name, h1, h2, -⟩ :=
    uniqueLoop_enough_fuel dir filename (dir.length + 2) (le_refl _)
  exact ⟨name, h1, h2⟩

theorem scanColumn_spec (dir : List JSString) (st : ScanState) (column : JSString)
    (hinv : st.downloadQueue.map (fun t => t.url) = st.foundUrls) :
    ∃ st', scanColumn dir st column = some st' ∧
      st'.downloadQueue.map (fun t => t.url) = st'.foundUrls ∧
      st'.lineCount = st.lineCount ∧
      st'.foundUrls =
        ((([column].map trimmedValueOf).filter isImageField).map normalizeUrl).foldl
          addNew st.foundUrls := by
  unfold scanColumn
  by_cases hacc : isImageField (trimmedValueOf column) = true
  · by_cases hnew : normalizeUrl (trimmedValueOf column) ∈ st.foundUrls
    · refine ⟨st, ?_, hinv, rfl, ?_⟩
      · simp [hacc, hnew]
      · simp [hacc, addNew, hnew]
    · obtain ⟨name, hname, -⟩ :=
        uniqueFilenameOf_free dir (baseFilename (normalizeUrl (trimmedValueOf column)))
      refine ⟨{ foundUrls := st.foundUrls ++ [normalizeUrl (trimmedValueOf column)]
                lineCount := st.lineCount
                downloadQueue := st.downloadQueue ++
                  [{ url := normalizeUrl (trimmedValueOf column), path := joinOutputDir name,
                     line := st.lineCount }] }, ?_, ?_, ?_, ?_⟩
      · simp only [hacc, hnew, if_true, not_false_eq_true, hname]
      · simp [hinv]
      · rfl
      · simp [hacc, addNew, hnew]
  · refine ⟨st, ?_, hinv, rfl, ?_⟩
    · simp [hacc]
    · simp [hacc]

theorem scanColumns_spec (dir : List JSString) : ∀ (columns : List JSString) (st : ScanState),
    st.downloadQueue.map (fun t => t.url) = st.foundUrls →
    ∃ st', columns.foldlM (scanColumn dir) st = some st' ∧
      st'.downloadQueue.map (fun t => t.url) = st'.foundUrls ∧
      st'.lineCount = st.lineCount ∧
      st'.foundUrls =
        (((columns.map trimmedValueOf).filter isImageField).map normalizeUrl).foldl
          addNew st.foundUrls
  | [], st, hinv => ⟨st, rfl, hinv, rfl, rfl⟩
  | c :: cs, st, hinv => by
    obtain ⟨st1, h1, hinv1, hl1, hf1⟩ := scanColumn_spec dir st c hinv
    obtain ⟨st2, h2, hinv2, hl2, hf2⟩ := scanColumns_spec dir cs st1 hinv1
    refine ⟨st2, ?_, hinv2, hl2.trans hl1, ?_⟩
    · rw [List.foldlM_cons, h1]
      exact h2
    · rw [hf2, hf1]
      by_cases hacc : isImageField (trimmedValueOf c) = true <;> simp [hacc]

theorem all_whiteSpace_of_trim_eq_nil {s : JSString} (h : trim s = []) :
    ∀ c ∈ s, isWhiteSpace c = true := by
  unfold trim at h
  rw [List.reverse_eq_nil_iff, List.dropWhile_eq_nil_iff] at h
  have hy : s.dropWhile isWhiteSpace = [] := by
    cases hd : s.dropWhile isWhiteSpace with
    | nil => rfl
    | cons x xs =>
      have hx := List.head_dropWhile_not isWhiteSpace s (by rw [hd]; exact List.cons_ne_nil _ _)
      simp only [hd, List.head_cons] at hx
      have := h x (by rw [hd]; simp)
      rw [this] at hx
      exact absurd hx (by simp)
  exact List.dropWhile_eq_nil_iff.1 hy

theorem trim_eq_nil_of_all_whiteSpace {s : JSString} (h : ∀ c ∈ s, isWhiteSpace c = true) :
    trim s = [] := by
  unfold trim
  rw [List.dropWhile_eq_nil_iff.2 h]
  rfl

theorem mem_of_mem_split (sep : Nat) : ∀ (s : JSString) (f : JSString), f ∈ split sep s →
    ∀ c ∈ f, c ∈ s
  | [], f, hf, c, hc => by
    simp only [split, List.mem_singleton] at hf
    rw [hf] at hc
    exact hc
  | x :: xs, f, hf, c, hc => by
    rw [split] at hf
    by_cases hx : x = sep
    · rw [if_pos hx, List.mem_cons] at hf
      rcases hf with rfl | hf
      · simp at hc
      · exact List.mem_cons_of_mem _ (mem_of_mem_split sep xs f hf c hc)
    · rw [if_neg hx] at hf
      cases hs : split sep xs with
      | nil =>
        rw [hs] at hf
        simp only [List.mem_singleton] at hf
        rw [hf] at hc
        simp only [List.mem_singleton] at hc
        rw [hc]
        exact List.mem_cons_self _ _
      | cons g gs =>
        rw [hs] at hf
        simp only [List.mem_cons] at hf
        rcases hf with rfl | hf
        · rcases List.mem_cons.1 hc with rfl | hc
          · exact List.mem_cons_self _ _
          · exact List.mem_cons_of_mem _
              (mem_of_mem_split sep xs g (by rw [hs]; exact List.mem_cons_self _ _) c hc)
        · exact List.mem_cons_of_mem _
            (mem_of_mem_split sep xs f (by rw [hs]; exact List.mem_cons_of_mem _ hf) c hc)

/-- A line that `trim` empties has no accepted field. -/
theorem candidatesOfLine_of_blank {line : JSString} (h : trim line = []) :
    candidatesOfLine line = [] := by
  unfold candidatesOfLine
  rw [List.map_eq_nil_iff, List.filter_eq_nil_iff]
  intro v hv
  obtain ⟨column, hc, rfl⟩ := List.mem_map.1 hv
  have hall := all_whiteSpace_of_trim_eq_nil h
  have hcol : trim column = [] :=
    trim_eq_nil_of_all_whiteSpace
      (fun c hcc => hall c (mem_of_mem_split delimiter line column hc c hcc))
  have : trimmedValueOf column = [] := by
    unfold trimmedValueOf
    rw [hcol]
    rfl
  rw [this]
  decide

theorem scanLine_spec (dir : List JSString) (st : ScanState) (line : JSString)
    (hinv : st.downloadQueue.map (fun t => t.url) = st.foundUrls) :
    ∃ st', scanLine dir st line = some st' ∧
      st'.downloadQueue.map (fun t => t.url) = st'.foundUrls ∧
      st'.lineCount = st.lineCount + 1 ∧
      st'.foundUrls = (candidatesOfLine line).foldl addNew st.foundUrls := by
  unfold scanLine
  by_cases hblank : trim line = []
  · exact ⟨{ st with lineCount := st.lineCount + 1 }, by simp [hblank], hinv, rfl, by
      simp [candidatesOfLine_of_blank hblank]⟩
  · obtain ⟨st', h1, h2, h3, h4⟩ := scanColumns_spec dir (split delimiter line)
      { st with lineCount := st.lineCount + 1 } hinv
    exact ⟨st', by simp only [hblank, if_false]; exact h1, h2, h3, h4⟩

theorem scanLines_spec (dir : List JSString) : ∀ (lines : List JSString) (st : ScanState),
    st.downloadQueue.map (fun t => t.url) = st.foundUrls →
    ∃ st', lines.foldlM (scanLine dir) st = some st' ∧
      st'.downloadQueue.map (fun t => t.url) = st'.foundUrls ∧
      st'.lineCount = st.lineCount + lines.length ∧
      st'.foundUrls = (candidates lines).foldl addNew st.foundUrls
  | [], st, hinv => ⟨st, rfl, hinv, rfl, rfl⟩
  | l :: ls, st, hinv => by
    obtain ⟨st1, h1, hinv1, hl1, hf1⟩ := scanLine_spec dir st l hinv
    obtain ⟨st2, h2, hinv2, hl2, hf2⟩ := scanLines_spec dir ls st1 hinv1
    refine ⟨st2, ?_, hinv2, ?_, ?_⟩
    · rw [List.foldlM_cons, h1]
      exact h2
    · rw [hl2, hl1, List.length_cons]
      omega
    · rw [hf2, hf1]
      simp only [candidates, List.flatMap_cons, List.foldl_append]

/-- The scan returns a state for every input; the URLs of its queue are the
first occurrences of the accepted normalized URLs. -/
theorem scan_spec (dir : List JSString) (lines : List JSString) :
    ∃ st, scan dir lines = some st ∧
      st.downloadQueue.map (fun t => t.url) = firsts (candidates lines) ∧
      st.foundUrls = firsts (candidates lines) ∧ st.lineCount = lines.length := by
  obtain ⟨st, h1, h2, h3, h4⟩ := scanLines_spec dir lines
    { foundUrls := [], lineCount := 0, downloadQueue := [] } rfl
  rw [foldl_addNew_nil] at h4
  exact ⟨st, h1, h2.trans h4, h4, by simpa using h3⟩

theorem mem_candidates {u : JSString} {lines : List JSString} :
    u ∈ candidates lines ↔
      ∃ line ∈ lines, ∃ column ∈ split delimiter line,
        isImageField (trimmedValueOf column) = true ∧
        u = normalizeUrl (trimmedValueOf column) := by
  simp only [candidates, List.mem_flatMap, candidatesOfLine, List.mem_map, List.mem_filter]
  constructor
  · rintro ⟨line, hl, f, ⟨⟨c, hc, rfl⟩, hacc⟩, rfl⟩
    exact ⟨line, hl, c, hc, hacc, rfl⟩
  · rintro ⟨line, hl, c, hc, hacc, rfl⟩
    exact ⟨line, hl, trimmedValueOf c, ⟨⟨c, hc, rfl⟩, hacc⟩, rfl⟩

/-! ## Normalization -/

theorem lit_www_dot : lit "www." = [119, 119, 119, 46] := by decide

theorem lit_https : lit "https://" = [104, 116, 116, 112, 115, 58, 47, 47] := by decide

theorem lit_http_slashes : lit "http://" = [104, 116, 116, 112, 58, 47, 47] := by decide

theorem not_www_dot_of_h {s : JSString} :
    startsWith (toLowerCase (104 :: s)) (lit "www.") = false := by
  rw [lit_www_dot]
  simp [startsWith, toLowerCase, lowerUnit, List.isPrefixOf]

theorem normalizeUrl_of_www_dot {field : JSString}
    (h : startsWith (toLowerCase field) (lit "www.") = true) :
    normalizeUrl field = lit "https://" ++ field := by
  simp [normalizeUrl, h]

theorem normalizeUrl_of_not_www_dot {field : JSString}
    (h : startsWith (toLowerCase field) (lit "www.") = false) :
    normalizeUrl field = field := by
  simp [normalizeUrl, h]

theorem normalizeUrl_https_append (field : JSString) :
    normalizeUrl (lit "https://" ++ field) = lit "https://" ++ field := by
  apply normalizeUrl_of_not_www_dot
  rw [lit_https]
  exact not_www_dot_of_h

theorem normalizeUrl_of_h {s : JSString} : normalizeUrl (104 :: s) = 104 :: s :=
  normalizeUrl_of_not_www_dot not_www_dot_of_h

/-! ## The claims on the scan phase -/

theorem one_task_of_nodup_urls {u : JSString} : ∀ {queue : List DownloadTask},
    (queue.map (fun t => t.url)).Nodup → u ∈ queue.map (fun t => t.url) →
    (queue.filter (fun t => decide (t.url = u))).length = 1
  | [], _, hu => by simp at hu
  | t :: ts, hnd, hu => by
    rw [List.map_cons, List.nodup_cons] at hnd
    by_cases h : t.url = u
    · have hnil : ts.filter (fun t => decide (t.url = u)) = [] := by
        rw [List.filter_eq_nil_iff]
        intro a ha hau
        exact hnd.1 (List.mem_map.2 ⟨a, ha, (of_decide_eq_true hau).trans h.symm⟩)
      simp [List.filter_cons, h, hnil]
    · have hu2 : u ∈ ts.map (fun t => t.url) := by
        rcases List.mem_cons.1 hu with e | e
        · exact absurd e.symm h
        · exact e
      simp [List.filter_cons, h, one_task_of_nodup_urls hnd.2 hu2]

/-- Claim C1, at an input where the code breaks it.  Two lines, `https://a/photo.jpg`
and `https://b/photo.jpg`, scanned against an empty output directory: the scan
tests the names against the files on disk only, none is written before the scan
ends, and both tasks get the destination `photo.jpg` in the output directory. -/
theorem scan_gives_two_tasks_one_destination :
    scan [] [lit "https://a/photo.jpg", lit "https://b/photo.jpg"] =
      some { foundUrls := [lit "https://a/photo.jpg", lit "https://b/photo.jpg"]
             lineCount := 2
             downloadQueue :=
               [{ url := lit "https://a/photo.jpg"
                  path := lit "/workspaces/image-to-text-AI/downloaded_images/photo.jpg"
                  line := 1 },
                { url := lit "https://b/photo.jpg"
                  path := lit "/workspaces/image-to-text-AI/downloaded_images/photo.jpg"
                  line := 2 }] } := by
  decide

/-- Claim C2.  For every directory listing and every sequence of input lines the
scan returns a state whose queue holds no URL twice; a URL is in the queue exactly
when it is an accepted normalized URL of the input, and then in exactly one task;
an accepted normalized URL is the normalized form of a field that passes the test
of lines 183-185; the tasks stand in the order of the first occurrences of their
URLs among the accepted normalized URLs; the length of the queue is the number of distinct
accepted normalized URLs. -/
theorem scan_queue_holds_each_accepted_url_once (dir : List JSString)
    (lines : List JSString) :
    ∃ st, scan dir lines = some st ∧
      (st.downloadQueue.map (fun t => t.url)).Nodup ∧
      (∀ u, u ∈ st.downloadQueue.map (fun t => t.url) ↔ u ∈ candidates lines) ∧
      (∀ u, u ∈ st.downloadQueue.map (fun t => t.url) ↔
        ∃ line ∈ lines, ∃ column ∈ split delimiter line,
          isImageField (trimmedValueOf column) = true ∧
          u = normalizeUrl (trimmedValueOf column)) ∧
      (∀ u, u ∈ candidates lines →
        (st.downloadQueue.filter (fun t => decide (t.url = u))).length = 1) ∧
      (st.downloadQueue.map (fun t => t.url)).Pairwise
        (fun a b => (candidates lines).findIdx (fun x => decide (x = a)) <
          (candidates lines).findIdx (fun x => decide (x = b))) ∧
      st.downloadQueue.length = (candidates lines).toFinset.card ∧
      st.foundUrls = st.downloadQueue.map (fun t => t.url) := by
  obtain ⟨st, h1, h2, h3, -⟩ := scan_spec dir lines
  refine ⟨st, h1, ?_, ?_, ?_, ?_, ?_, ?_, ?_⟩
  · rw [h2]
    exact nodup_firsts _
  · intro u
    rw [h2]
    exact mem_firsts
  · intro u
    rw [h2, mem_firsts]
    exact mem_candidates
  · intro u hu
    refine one_task_of_nodup_urls ?_ ?_
    · rw [h2]
      exact nodup_firsts _
    · rw [h2]
      exact mem_firsts.2 hu
  · rw [h2]
    exact firsts_pairwise_findIdx _
  · rw [← length_firsts, ← h2, List.length_map]
  · rw [h2, h3]

/-- Claim C3, at inputs where the code breaks it.  The field `httpx.jpg` is
accepted (it holds `.jpg` and begins with `http`) and queued as it is; the field
`wwwx.jpg` is accepted on the prefix `www` and gets no `https://`, which is added
for the prefix `www.` only.  Neither URL of the queue begins with `http://` or
`https://`. -/
theorem scan_queues_url_without_scheme :
    (scan [] [lit "httpx.jpg"]).map (fun st => st.downloadQueue.map (fun t =>
        (t.url, startsWith t.url (lit "http://"), startsWith t.url (lit "https://")))) =
      some [(lit "httpx.jpg", false, false)] ∧
    (scan [] [lit "wwwx.jpg"]).map (fun st => st.downloadQueue.map (fun t =>
        (t.url, startsWith t.url (lit "http://"), startsWith t.url (lit "https://")))) =
      some [(lit "wwwx.jpg", false, false)] := by
  decide

/-- Claim C4 as stated fails: on the two lines `foo https://site/a.jpg<TAB>bar` and
`baz https://site/a.jpg<TAB>qux` the fields are `foo https://site/a.jpg`, `bar`,
`baz https://site/a.jpg` and `qux`; none begins with `http` or `www`, and the
queue is empty. -/
theorem scan_of_two_line_example_is_empty :
    (scan [] [lit "foo https://site/a.jpg\tbar", lit "baz https://site/a.jpg\tqux"]).map
      (fun st => (st.downloadQueue, st.lineCount)) = some ([], 2) := by
  decide

/-- Claim C4, amended.  Whatever the output directory holds, the scan of the two
lines `foo https://site/a.jpg<TAB>bar` and `baz https://site/a.jpg<TAB>qux` gives
an empty queue (0 URLs found in 2 lines); when the URL is a field of its own, in
the lines `foo<TAB>https://site/a.jpg<TAB>bar` and
`baz<TAB>https://site/a.jpg<TAB>qux`, the queue has exactly one task, for
`https://site/a.jpg`. -/
theorem scan_of_two_line_example (dir : List JSString) :
    (∃ st, scan dir [lit "foo https://site/a.jpg\tbar", lit "baz https://site/a.jpg\tqux"] =
        some st ∧ st.downloadQueue = [] ∧ st.downloadQueue.length = 0 ∧ st.lineCount = 2) ∧
    (∃ st t, scan dir [lit "foo\thttps://site/a.jpg\tbar", lit "baz\thttps://site/a.jpg\tqux"] =
        some st ∧ st.downloadQueue = [t] ∧ t.url = lit "https://site/a.jpg" ∧
        st.downloadQueue.length = 1 ∧ st.lineCount = 2) := by
  constructor
  · obtain ⟨st, h1, h2, -, h4⟩ := scan_spec dir
      [lit "foo https://site/a.jpg\tbar", lit "baz https://site/a.jpg\tqux"]
    have hc : firsts (candidates
        [lit "foo https://site/a.jpg\tbar", lit "baz https://site/a.jpg\tqux"]) = [] := by
      decide
    rw [hc] at h2
    have hq : st.downloadQueue = [] := List.map_eq_nil_iff.1 h2
    exact ⟨st, h1, hq, by rw [hq]; rfl, h4⟩
  · obtain ⟨st, h1, h2, -, h4⟩ := scan_spec dir
      [lit "foo\thttps://site/a.jpg\tbar", lit "baz\thttps://site/a.jpg\tqux"]
    have hc : firsts (candidates
        [lit "foo\thttps://site/a.jpg\tbar", lit "baz\thttps://site/a.jpg\tqux"]) =
        [lit "https://site/a.jpg"] := by
      decide
    rw [hc] at h2
    cases hq : st.downloadQueue with
    | nil => rw [hq] at h2; simp at h2
    | cons t ts =>
      rw [hq, List.map_cons] at h2
      have hts : ts = [] := List.map_eq_nil_iff.1 (List.cons.inj h2).2
      subst hts
      exact ⟨st, t, h1, hq, (List.cons.inj h2).1, by rw [hq]; rfl, h4⟩

/-- Claim C5.  Normalization is idempotent on every field; a field that begins with
`http://` or `https://` is left as it is; a field whose lowercase form begins with
`www.` becomes `https://` followed by the field, and normalizing that again adds
no second prefix. -/
theorem normalizeUrl_idempotent (field : JSString) :
    normalizeUrl (normalizeUrl field) = normalizeUrl field ∧
    (startsWith field (lit "http://") = true ∨ startsWith field (lit "https://") = true →
      normalizeUrl field = field) ∧
    (startsWith (toLowerCase field) (lit "www.") = true →
      normalizeUrl field = lit "https://" ++ field ∧
      normalizeUrl (lit "https://" ++ field) = lit "https://" ++ field) := by
  refine ⟨?_, ?_, ?_⟩
  · cases hw : startsWith (toLowerCase field) (lit "www.") with
    | true => rw [normalizeUrl_of_www_dot hw, normalizeUrl_https_append]
    | false => rw [normalizeUrl_of_not_www_dot hw, normalizeUrl_of_not_www_dot hw]
  · intro h
    have hh : ∃ s, field = 104 :: s := by
      rw [lit_http_slashes, lit_https] at h
      simp only [startsWith, List.isPrefixOf_iff_prefix] at h
      rcases h with ⟨r, hr⟩ | ⟨r, hr⟩
      · exact ⟨_, hr.symm⟩
      · exact ⟨_, hr.symm⟩
    obtain ⟨s, rfl⟩ := hh
    exact normalizeUrl_of_h
  · intro hw
    exact ⟨normalizeUrl_of_www_dot hw, normalizeUrl_https_append field⟩

/-- The field `WWW.site.org/a.jpg` becomes `https://WWW.site.org/a.jpg`, and
`https://site/a.jpg` stays as it is. -/
theorem normalizeUrl_idempotent_witness :
    normalizeUrl (lit "WWW.site.org/a.jpg") = lit "https://WWW.site.org/a.jpg" ∧
    normalizeUrl (normalizeUrl (lit "WWW.site.org/a.jpg")) =
      normalizeUrl (lit "WWW.site.org/a.jpg") ∧
    normalizeUrl (lit "https://site/a.jpg") = lit "https://site/a.jpg" :=
  ⟨((normalizeUrl_idempotent (lit "WWW.site.org/a.jpg")).2.2 (by decide)).1,
   (normalizeUrl_idempotent (lit "WWW.site.org/a.jpg")).1,
   (normalizeUrl_idempotent (lit "https://site/a.jpg")).2.1 (Or.inr (by decide))⟩

/-! ## The batch loop -/

theorem slice_append_drop {α : Type} (queue : List α) (i : Nat) :
    slice queue i (i + CONCURRENCY) ++ queue.drop (i + CONCURRENCY) = queue.drop i := by
  unfold slice
  by_cases h : i ≤ queue.length
  · conv_rhs => rw [← List.take_append_drop (i + CONCURRENCY) queue]
    rw [List.drop_append_of_le_length]
    rw [List.length_take]
    omega
  · have e1 : queue.drop i = [] := List.drop_eq_nil_of_le (by omega)
    have e2 : queue.drop (i + CONCURRENCY) = [] := List.drop_eq_nil_of_le (by omega)
    have e3 : (queue.take (i + CONCURRENCY)).drop i = [] :=
      List.drop_eq_nil_of_le (by rw [List.length_take]; omega)
    rw [e1, e2, e3]
    rfl

theorem length_slice {α : Type} (queue : List α) (i : Nat) :
    (slice queue i (i + CONCURRENCY)).length = min (i + CONCURRENCY) queue.length - i := by
  simp [slice]

theorem mem_of_mem_slice {α : Type} {queue : List α} {a b : Nat} {x : α}
    (h : x ∈ slice queue a b) : x ∈ queue :=
  List.mem_of_mem_take (List.mem_of_mem_drop h)

/-- When every promise of the list resolves, the `await` returns and each result
has been counted. -/
theorem awaitAll_of_resolved {α : Type} (fetch : α → Settlement) (outcome : α → DownloadResult) :
    ∀ (l : List α) (r : Results) (unsettled : Bool),
    (∀ x ∈ l, fetch x = Settlement.resolved (outcome x)) →
    awaitAll fetch l r unsettled =
      (l.foldl (fun r item => tally r (outcome item)) r,
        if unsettled then LoopEnd.hung else LoopEnd.completed)
  | [], r, unsettled, _ => rfl
  | x :: xs, r, unsettled, h => by
    rw [awaitAll, h x (List.mem_cons_self _ _)]
    exact awaitAll_of_resolved fetch outcome xs _ unsettled
      (fun y hy => h y (List.mem_cons_of_mem _ hy))

theorem batchLoop_unfold {α : Type} (fetch : α → Settlement) (settle : List α → List α)
    (queue : List α) (i : Nat) (st : RunState α) :
    batchLoop fetch settle queue i st =
      if i < queue.length then
        if (awaitAll fetch (settle (slice queue i (i + CONCURRENCY))) st.results false).2 =
            LoopEnd.completed then
          batchLoop fetch settle queue (i + CONCURRENCY)
            { results :=
                (awaitAll fetch (settle (slice queue i (i + CONCURRENCY))) st.results false).1
              batches := st.batches ++ [slice queue i (i + CONCURRENCY)]
              progress := st.progress ++ [i + (slice queue i (i + CONCURRENCY)).length]
              ended := LoopEnd.completed }
        else
          { results :=
              (awaitAll fetch (settle (slice queue i (i + CONCURRENCY))) st.results false).1
            batches := st.batches ++ [slice queue i (i + CONCURRENCY)]
            progress := st.progress
            ended :=
              (awaitAll fetch (settle (slice queue i (i + CONCURRENCY))) st.results false).2 }
      else st := by
  rw [batchLoop]

theorem batchLoop_step {α : Type} (fetch : α → Settlement) (outcome : α → DownloadResult)
    (settle : List α → List α) (hsettle : ∀ batch, (settle batch).Perm batch)
    (queue : List α) (hres : ∀ x ∈ queue, fetch x = Settlement.resolved (outcome x))
    (i : Nat) (st : RunState α) (h : i < queue.length) :
    batchLoop fetch settle queue i st =
      batchLoop fetch settle queue (i + CONCURRENCY)
        { results := (settle (slice queue i (i + CONCURRENCY))).foldl
            (fun r item => tally r (outcome item)) st.results
          batches := st.batches ++ [slice queue i (i + CONCURRENCY)]
          progress := st.progress ++ [i + (slice queue i (i + CONCURRENCY)).length]
          ended := LoopEnd.completed } := by
  have ha := awaitAll_of_resolved fetch outcome (settle (slice queue i (i + CONCURRENCY)))
    st.results false
    (fun x hx => hres x (mem_of_mem_slice ((hsettle _).subset hx)))
  rw [batchLoop_unfold, if_pos h, ha]
  simp

theorem batchLoop_done {α : Type} (fetch : α → Settlement) (settle : List α → List α)
    (queue : List α) (i : Nat) (st : RunState α) (h : ¬ i < queue.length) :
    batchLoop fetch settle queue i st = st := by
  rw [batchLoop_unfold, if_neg h]

theorem batchLoop_batches {α : Type} (fetch : α → Settlement) (outcome : α → DownloadResult)
    (settle : List α → List α) (hsettle : ∀ batch, (settle batch).Perm batch)
    (queue : List α) (hres : ∀ x ∈ queue, fetch x = Settlement.resolved (outcome x)) :
    ∀ (n i : Nat) (st : RunState α), queue.length - i = n →
    ∃ bs, (batchLoop fetch settle queue i st).batches = st.batches ++ bs ∧
      bs.flatten = queue.drop i ∧
      bs.length = (queue.length - i + 4) / 5 ∧
      (∀ b ∈ bs.dropLast, b.length = 5) ∧
      (∀ b ∈ bs.getLast?, 1 ≤ b.length ∧ b.length ≤ 5) ∧
      (st.ended = LoopEnd.completed →
        (batchLoop fetch settle queue i st).ended = LoopEnd.completed) := by
  intro n
  induction n using Nat.strong_induction_on with
  | _ n ih =>
    intro i st hn
    by_cases h : i < queue.length
    · obtain ⟨bs, h1, h2, h3, h4, h5, h6⟩ := ih (queue.length - (i + CONCURRENCY))
        (by simp only [CONCURRENCY]; omega) (i + CONCURRENCY)
        { results := (settle (slice queue i (i + CONCURRENCY))).foldl
            (fun r item => tally r (outcome item)) st.results
          batches := st.batches ++ [slice queue i (i + CONCURRENCY)]
          progress := st.progress ++ [i + (slice queue i (i + CONCURRENCY)).length]
          ended := LoopEnd.completed } rfl
      have hlen := length_slice queue i
      simp only [CONCURRENCY] at hlen h3
      refine ⟨slice queue i (i + CONCURRENCY) :: bs, ?_, ?_, ?_, ?_, ?_, ?_⟩
      · rw [batchLoop_step fetch outcome settle hsettle queue hres i st h, h1]
        simp
      · rw [List.flatten_cons, h2, slice_append_drop]
      · rw [List.length_cons, h3]
        omega
      · intro b hb
        cases bs with
        | nil => simp at hb
        | cons c cs =>
          rw [List.dropLast_cons₂, List.mem_cons] at hb
          rcases hb with rfl | hb
          · simp only [List.length_cons] at h3
            simp only [CONCURRENCY]
            omega
          · exact h4 b hb
      · intro b hb
        cases bs with
        | nil =>
          simp only [List.getLast?_singleton, Option.mem_def, Option.some.injEq] at hb
          subst hb
          simp only [CONCURRENCY]
          omega
        | cons c cs =>
          rw [List.getLast?_cons_cons] at hb
          exact h5 b hb
      · intro _
        rw [batchLoop_step fetch outcome settle hsettle queue hres i st h]
        exact h6 rfl
    · refine ⟨[], ?_, ?_, ?_, ?_, ?_, ?_⟩
      · rw [batchLoop_done fetch settle queue i st h]
        simp
      · rw [List.drop_eq_nil_of_le (by omega)]
        rfl
      · simp only [List.length_nil]
        omega
      · simp
      · simp
      · intro he
        rw [batchLoop_done fetch settle queue i st h]
        exact he

theorem foldl_tally {α : Type} (fetch : α → DownloadResult) : ∀ (l : List α) (r : Results),
    (l.foldl (fun r item => tally r (fetch item)) r).skipped =
        r.skipped + l.countP (fun x => (fetch x).skipped) ∧
    (l.foldl (fun r item => tally r (fetch item)) r).success =
        r.success + l.countP (fun x => !(fetch x).skipped && (fetch x).success) ∧
    (l.foldl (fun r item => tally r (fetch item)) r).failed =
        r.failed + l.countP (fun x => !(fetch x).skipped && !(fetch x).success)
  | [], r => by simp
  | x :: xs, r => by
    obtain ⟨h1, h2, h3⟩ := foldl_tally fetch xs (tally r (fetch x))
    rw [List.foldl_cons, h1, h2, h3]
    simp only [List.countP_cons, tally]
    cases hs : (fetch x).skipped <;> cases hc : (fetch x).success <;> simp <;> omega

theorem batchLoop_results {α : Type} (fetch : α → Settlement) (outcome : α → DownloadResult)
    (settle : List α → List α) (hsettle : ∀ batch, (settle batch).Perm batch)
    (queue : List α) (hres : ∀ x ∈ queue, fetch x = Settlement.resolved (outcome x)) :
    ∀ (n i : Nat) (st : RunState α), queue.length - i = n →
    (batchLoop fetch settle queue i st).results.skipped =
        st.results.skipped + (queue.drop i).countP (fun x => (outcome x).skipped) ∧
    (batchLoop fetch settle queue i st).results.success =
        st.results.success +
          (queue.drop i).countP (fun x => !(outcome x).skipped && (outcome x).success) ∧
    (batchLoop fetch settle queue i st).results.failed =
        st.results.failed +
          (queue.drop i).countP (fun x => !(outcome x).skipped && !(outcome x).success) := by
  intro n
  induction n using Nat.strong_induction_on with
  | _ n ih =>
    intro i st hn
    by_cases h : i < queue.length
    · obtain ⟨h1, h2, h3⟩ := ih (queue.length - (i + CONCURRENCY))
        (by simp only [CONCURRENCY]; omega) (i + CONCURRENCY)
        { results := (settle (slice queue i (i + CONCURRENCY))).foldl
            (fun r item => tally r (outcome item)) st.results
          batches := st.batches ++ [slice queue i (i + CONCURRENCY)]
          progress := st.progress ++ [i + (slice queue i (i + CONCURRENCY)).length]
          ended := LoopEnd.completed } rfl
      obtain ⟨f1, f2, f3⟩ := foldl_tally outcome (settle (slice queue i (i + CONCURRENCY)))
        st.results
      have hp := hsettle (slice queue i (i + CONCURRENCY))
      rw [batchLoop_step fetch outcome settle hsettle queue hres i st h, h1, h2, h3]
      simp only [f1, f2, f3, hp.countP_eq]
      rw [← slice_append_drop queue i]
      simp only [List.countP_append]
      omega
    · rw [batchLoop_done fetch settle queue i st h, List.drop_eq_nil_of_le (by omega)]
      simp

theorem countP_three {α : Type} (fetch : α → DownloadResult) : ∀ (l : List α),
    l.countP (fun x => !(fetch x).skipped && (fetch x).success) +
      l.countP (fun x => !(fetch x).skipped && !(fetch x).success) +
      l.countP (fun x => (fetch x).skipped) = l.length
  | [] => rfl
  | x :: xs => by
    have := countP_three fetch xs
    simp only [List.countP_cons, List.length_cons]
    cases hs : (fetch x).skipped <;> cases hc : (fetch x).success <;> simp <;> omega

/-- Claim C7 as stated fails: of the six tasks 0, ..., 5, the promise of task 0 is
rejected and the others resolve.  The `await` of the first batch throws, the loop
is left through the `catch`, and the one batch issued, of the tasks 0, ..., 4, is
not the whole queue: task 5 is in no batch, and there is one batch, not two. -/
theorem batches_stop_at_rejected_promise :
    (runBatches (fun k : Nat => if k = 0 then Settlement.rejected else
        Settlement.resolved
          { skipped := false, success := true, status := none, reason := none,
            error := none, url := none, size := some 1 }) id
      (List.range 6)).batches = [[0, 1, 2, 3, 4]] ∧
    (runBatches (fun k : Nat => if k = 0 then Settlement.rejected else
        Settlement.resolved
          { skipped := false, success := true, status := none, reason := none,
            error := none, url := none, size := some 1 }) id
      (List.range 6)).ended = LoopEnd.aborted ∧
    (runBatches (fun k : Nat => if k = 0 then Settlement.rejected else
        Settlement.resolved
          { skipped := false, success := true, status := none, reason := none,
            error := none, url := none, size := some 1 }) id
      (List.range 6)).batches.flatten ≠ List.range 6 ∧
    (runBatches (fun k : Nat => if k = 0 then Settlement.rejected else
        Settlement.resolved
          { skipped := false, success := true, status := none, reason := none,
            error := none, url := none, size := some 1 }) id
      (List.range 6)).batches.length ≠ ((List.range 6).length + 4) / 5 := by
  have hs : slice (List.range 6) 0 (0 + CONCURRENCY) = [0, 1, 2, 3, 4] := by decide
  have hrun : runBatches (fun k : Nat => if k = 0 then Settlement.rejected else
        Settlement.resolved
          { skipped := false, success := true, status := none, reason := none,
            error := none, url := none, size := some 1 }) id
      (List.range 6) =
      { results := { success := 0, failed := 0, skipped := 0 }
        batches := [[0, 1, 2, 3, 4]]
        progress := []
        ended := LoopEnd.aborted } := by
    rw [runBatches, batchLoop_unfold, if_pos (by decide), hs]
    rfl
  rw [hrun]
  exact ⟨rfl, rfl, by decide, by decide⟩

/-- Claim C7, amended.  When every `downloadImage` call of the queue resolves with
an outcome, in whatever order the promises of a batch resolve, the loop ends after
its last batch; the batches it issues, put end to end in order, are the queue;
every batch but the last has 5 tasks and the last has between 1 and 5; there are
`ceil (n / 5)` batches for a queue of `n` tasks; a queue of 12 tasks gives three
batches, of 5, 5 and 2 tasks. -/
theorem batches_partition_queue {α : Type} (fetch : α → Settlement)
    (outcome : α → DownloadResult) (settle : List α → List α) (queue : List α)
    (hsettle : ∀ batch, (settle batch).Perm batch)
    (hres : ∀ x ∈ queue, fetch x = Settlement.resolved (outcome x)) :
    (runBatches fetch settle queue).ended = LoopEnd.completed ∧
    (runBatches fetch settle queue).batches.flatten = queue ∧
    (∀ b ∈ (runBatches fetch settle queue).batches.dropLast, b.length = 5) ∧
    (∀ b ∈ (runBatches fetch settle queue).batches.getLast?,
      1 ≤ b.length ∧ b.length ≤ 5) ∧
    (runBatches fetch settle queue).batches.length = (queue.length + 4) / 5 ∧
    queue.length ≤ 5 * (runBatches fetch settle queue).batches.length ∧
    5 * (runBatches fetch settle queue).batches.length < queue.length + 5 ∧
    (queue.length = 12 →
      (runBatches fetch settle queue).batches.map List.length = [5, 5, 2]) := by
  obtain ⟨bs, h1, h2, h3, h4, h5, h6⟩ :=
    batchLoop_batches fetch outcome settle hsettle queue hres queue.length 0
      { results := { success := 0, failed := 0, skipped := 0 }, batches := [], progress := [],
        ended := LoopEnd.completed } rfl
  simp only [List.nil_append, List.drop_zero, Nat.sub_zero] at h1 h2 h3
  unfold runBatches
  rw [h1]
  refine ⟨h6 rfl, h2, h4, h5, h3, ?_, ?_, ?_⟩
  · rw [h3]
    omega
  · rw [h3]
    omega
  · intro h12
    rw [h12] at h3
    have hlen := congrArg List.length h2
    rw [h12] at hlen
    match bs, h3, h4, hlen with
    | [a, b, c], _, h4, hlen =>
      have ha := h4 a (by simp)
      have hb := h4 b (by simp)
      simp only [List.flatten_cons, List.flatten_nil, List.length_append, List.length_nil,
        Nat.add_zero] at hlen
      simp only [List.map_cons, List.map_nil, ha, hb]
      congr 3
      omega

/-- A queue of the twelve tasks 0, ..., 11, every promise resolving, the promises of
a batch resolving in reverse order: the loop ends after three batches, of 5, 5 and
2 tasks. -/
theorem batches_partition_queue_witness :
    (∀ batch : List Nat, (List.reverse batch).Perm batch) ∧
    (∀ x ∈ List.range 12,
      (fun _ : Nat => Settlement.resolved
        { skipped := false, success := true, status := none, reason := none, error := none,
          url := none, size := some 1 }) x =
      Settlement.resolved ((fun _ : Nat =>
        ({ skipped := false, success := true, status := none, reason := none, error := none,
           url := none, size := some 1 } : DownloadResult)) x)) ∧
    (runBatches (fun _ : Nat => Settlement.resolved
        { skipped := false, success := true, status := none, reason := none, error := none,
          url := none, size := some 1 }) List.reverse
      (List.range 12)).ended = LoopEnd.completed ∧
    (runBatches (fun _ : Nat => Settlement.resolved
        { skipped := false, success := true, status := none, reason := none, error := none,
          url := none, size := some 1 }) List.reverse
      (List.range 12)).batches.map List.length = [5, 5, 2] := by
  have h := batches_partition_queue
    (fun _ : Nat => Settlement.resolved
        { skipped := false, success := true, status := none, reason := none, error := none,
          url := none, size := some 1 })
    (fun _ : Nat =>
        ({ skipped := false, success := true, status := none, reason := none, error := none,
           url := none, size := some 1 } : DownloadResult))
    List.reverse (List.range 12) (fun batch => List.reverse_perm batch) (fun _ _ => rfl)
  exact ⟨fun batch => List.reverse_perm batch, fun _ _ => rfl, h.1,
    h.2.2.2.2.2.2.2 (by decide)⟩

/-- Claim C8.  When every call of the queue resolves with an outcome (`outcome`), in
whatever order the promises of a batch resolve (`settle`), the loop ends after its
last batch and the counters are: `skipped`, the number of tasks whose outcome is a
skip; `success`, the number of the other tasks whose outcome is a success;
`failed`, the number of the rest.  Their sum is the number of tasks of the
queue. -/
theorem scheduler_counts_each_outcome_once {α : Type} (fetch : α → Settlement)
    (outcome : α → DownloadResult) (settle : List α → List α) (queue : List α)
    (hsettle : ∀ batch, (settle batch).Perm batch)
    (hres : ∀ x ∈ queue, fetch x = Settlement.resolved (outcome x)) :
    (runBatches fetch settle queue).ended = LoopEnd.completed ∧
    (runBatches fetch settle queue).results.skipped =
      queue.countP (fun x => (outcome x).skipped) ∧
    (runBatches fetch settle queue).results.success =
      queue.countP (fun x => !(outcome x).skipped && (outcome x).success) ∧
    (runBatches fetch settle queue).results.failed =
      queue.countP (fun x => !(outcome x).skipped && !(outcome x).success) ∧
    (runBatches fetch settle queue).results.success +
      (runBatches fetch settle queue).results.failed +
      (runBatches fetch settle queue).results.skipped = queue.length := by
  obtain ⟨h1, h2, h3⟩ :=
    batchLoop_results fetch outcome settle hsettle queue hres queue.length 0
      { results := { success := 0, failed := 0, skipped := 0 }, batches := [], progress := [],
        ended := LoopEnd.completed } rfl
  obtain ⟨bs, -, -, -, -, -, h6⟩ :=
    batchLoop_batches fetch outcome settle hsettle queue hres queue.length 0
      { results := { success := 0, failed := 0, skipped := 0 }, batches := [], progress := [],
        ended := LoopEnd.completed } rfl
  simp only [List.drop_zero, Nat.zero_add] at h1 h2 h3
  unfold runBatches
  refine ⟨h6 rfl, h1, h2, h3, ?_⟩
  rw [h1, h2, h3]
  exact countP_three outcome queue

/-- Seven tasks 0, ..., 6, the promises of a batch resolving in reverse order: task 0
is skipped, the tasks 1, 2, 3 succeed, the others fail; the counters end at 3
successes, 3 failures and 1 skip. -/
theorem scheduler_counts_each_outcome_once_witness :
    (∀ batch : List Nat, (List.reverse batch).Perm batch) ∧
    (runBatches (fun k : Nat => Settlement.resolved
        { skipped := decide (k = 0), success := decide (k < 4), status := none,
          reason := none, error := none, url := none, size := none })
      List.reverse (List.range 7)).results = { success := 3, failed := 3, skipped := 1 } ∧
    (runBatches (fun k : Nat => Settlement.resolved
        { skipped := decide (k = 0), success := decide (k < 4), status := none,
          reason := none, error := none, url := none, size := none })
      List.reverse (List.range 7)).ended = LoopEnd.completed := by
  refine ⟨fun batch => List.reverse_perm batch, ?_⟩
  obtain ⟨h0, h1, h2, h3, -⟩ := scheduler_counts_each_outcome_once
      (fun k : Nat => Settlement.resolved
        { skipped := decide (k = 0), success := decide (k < 4), status := none,
          reason := none, error := none, url := none, size := none })
      (fun k : Nat =>
        ({ skipped := decide (k = 0), success := decide (k < 4), status := none,
           reason := none, error := none, url := none, size := none } : DownloadResult))
      List.reverse (List.range 7) (fun batch => List.reverse_perm batch) (fun _ _ => rfl)
  have e1 : (List.range 7).countP (fun k => decide (k = 0)) = 1 := by decide
  have e2 : (List.range 7).countP (fun k => !decide (k = 0) && decide (k < 4)) = 3 := by
    decide
  have e3 : (List.range 7).countP (fun k => !decide (k = 0) && !decide (k < 4)) = 3 := by
    decide
  rw [e1] at h1
  rw [e2] at h2
  rw [e3] at h3
  refine ⟨?_, h0⟩
  cases hr : (runBatches (fun k : Nat => Settlement.resolved
        { skipped := decide (k = 0), success := decide (k < 4), status := none,
          reason := none, error := none, url := none, size := none })
      List.reverse (List.range 7)).results with
  | mk s f k =>
    rw [hr] at h1 h2 h3
    simp only at h1 h2 h3
    rw [h1, h2, h3]

/-! ## The base filename -/

theorem split_headD (sep : Nat) : ∀ (s : JSString),
    (split sep s).headD [] = s.takeWhile (fun c => c ≠ sep)
  | [] => rfl
  | c :: cs => by
    by_cases h : c = sep
    · simp [split, h]
    · have ih := split_headD sep cs
      rw [split, if_neg h]
      have hc : List.takeWhile (fun c => decide (c ≠ sep)) (c :: cs) =
          c :: List.takeWhile (fun c => decide (c ≠ sep)) cs := by
        simp [List.takeWhile_cons, h]
      rw [hc, ← ih]
      cases hs : split sep cs with
      | nil => rfl
      | cons f fs => rfl

theorem isSafeUnit_iff (c : Nat) :
    isSafeUnit c = true ↔
      ((97 ≤ c ∧ c ≤ 122) ∨ (65 ≤ c ∧ c ≤ 90) ∨ (48 ≤ c ∧ c ≤ 57) ∨
        c = 46 ∨ c = 95 ∨ c = 45) := by
  simp [isSafeUnit, or_assoc]

theorem baseFilename_eq_spec (imageUrl : JSString) :
    baseFilename imageUrl = specBaseFilename (basename imageUrl) := by
  have htrunc : ∀ l : JSString, (if l.length > 200 then l.take 200 else l) = l.take 200 := by
    intro l
    by_cases h : l.length > 200
    · rw [if_pos h]
    · rw [if_neg h, List.take_of_length_le (by omega)]
  simp only [baseFilename, htrunc, split_headD, sanitize, specBaseFilename]
  congr 1
  apply List.map_congr_left
  intro c _
  by_cases h : isSafeUnit c = true
  · rw [if_pos h, if_pos ((isSafeUnit_iff c).1 h)]
  · rw [if_neg h, if_neg (fun h2 => h ((isSafeUnit_iff c).2 h2))]

theorem basename_shape (p : JSString) :
    (∃ pre slashes, (p = basename p ++ slashes ∨ p = pre ++ 47 :: basename p ++ slashes) ∧
      ∀ c ∈ slashes, c = 47) ∧
    47 ∉ basename p ∧ (basename p = [] → ∀ c ∈ p, c = 47) := by
  have hr : p = ((p.reverse.dropWhile (fun c => c = 47)).dropWhile (fun c => c ≠ 47)).reverse ++
      basename p ++ (p.reverse.takeWhile (fun c => c = 47)).reverse := by
    unfold basename
    rw [← List.reverse_append, List.takeWhile_append_dropWhile, ← List.reverse_append,
      List.takeWhile_append_dropWhile, List.reverse_reverse]
  have hsl : ∀ c ∈ (p.reverse.takeWhile (fun c => c = 47)).reverse, c = 47 := by
    intro c hc
    have := List.mem_takeWhile_imp (List.mem_reverse.1 hc)
    simpa using this
  refine ⟨?_, ?_, ?_⟩
  · cases hd : (p.reverse.dropWhile (fun c => c = 47)).dropWhile (fun c => c ≠ 47) with
    | nil =>
      rw [hd] at hr
      exact ⟨[], _, Or.inl (by simpa using hr), hsl⟩
    | cons x xs =>
      have hx : x = 47 := by
        have := List.head_dropWhile_not (fun c => decide (c ≠ 47))
          (p.reverse.dropWhile (fun c => c = 47))
          (by rw [hd]; exact List.cons_ne_nil _ _)
        simp only [hd, List.head_cons] at this
        simpa using this
      rw [hd, hx] at hr
      refine ⟨xs.reverse, _, Or.inr ?_, hsl⟩
      simpa using hr
  · intro h
    unfold basename at h
    have := List.mem_takeWhile_imp (List.mem_reverse.1 h)
    simp at this
  · intro he c hc
    have hq : p.reverse.dropWhile (fun c => c = 47) = [] := by
      cases hd : p.reverse.dropWhile (fun c => c = 47) with
      | nil => rfl
      | cons x xs =>
        have hx := List.head_dropWhile_not (fun c => decide (c = 47)) p.reverse
          (by rw [hd]; exact List.cons_ne_nil _ _)
        simp only [hd, List.head_cons] at hx
        have hx2 : ¬ x = 47 := by simpa using hx
        unfold basename at he
        rw [hd, List.takeWhile_cons] at he
        simp [hx2] at he
    rw [List.dropWhile_eq_nil_iff] at hq
    simpa using hq c (List.mem_reverse.2 hc)

/-- Claim C10.  The final path segment of a URL is what `path.basename` gives: the
URL is that segment followed by slashes only, with or without a part ending in `/`
before it, and the segment holds no `/`.  The base filename is the first 200 code
units of the segment cut at its first `?`, every code unit outside
`[A-Za-z0-9._-]` replaced by `_`; so it holds only code units of that class and
its length is at most 200. -/
theorem baseFilename_is_sanitized_segment (imageUrl : JSString) :
    ((∃ pre slashes, (imageUrl = basename imageUrl ++ slashes ∨
        imageUrl = pre ++ 47 :: basename imageUrl ++ slashes) ∧ ∀ c ∈ slashes, c = 47) ∧
      47 ∉ basename imageUrl ∧ (basename imageUrl = [] → ∀ c ∈ imageUrl, c = 47)) ∧
    baseFilename imageUrl = specBaseFilename (basename imageUrl) ∧
    (∀ c ∈ baseFilename imageUrl,
      (97 ≤ c ∧ c ≤ 122) ∨ (65 ≤ c ∧ c ≤ 90) ∨ (48 ≤ c ∧ c ≤ 57) ∨
        c = 46 ∨ c = 95 ∨ c = 45) ∧
    (baseFilename imageUrl).length ≤ 200 := by
  refine ⟨basename_shape imageUrl, baseFilename_eq_spec imageUrl, ?_, ?_⟩
  · intro c hc
    rw [baseFilename_eq_spec, specBaseFilename] at hc
    obtain ⟨d, -, hd⟩ := List.mem_map.1 (List.mem_of_mem_take hc)
    split at hd
    · rw [← hd]
      assumption
    · rw [← hd]
      simp
  · rw [baseFilename_eq_spec, specBaseFilename]
    exact List.length_take_le _ _

/-- The URL `https://site/dir/my photo.jpg?size=large//`: its final segment is
`my photo.jpg?size=large` and its base filename `my_photo.jpg`. -/
theorem baseFilename_is_sanitized_segment_witness :
    basename (lit "https://site/dir/my photo.jpg?size=large//") =
      lit "my photo.jpg?size=large" ∧
    baseFilename (lit "https://site/dir/my photo.jpg?size=large//") = lit "my_photo.jpg" ∧
    specBaseFilename (lit "my photo.jpg?size=large") = lit "my_photo.jpg" ∧
    (baseFilename (lit "https://site/dir/my photo.jpg?size=large//")).length ≤ 200 :=
  ⟨by decide, by decide, by decide,
    (baseFilename_is_sanitized_segment (lit "https://site/dir/my photo.jpg?size=large//")).2.2.2⟩

/-! ## The fetcher -/

theorem downloadImage_of_status (net : JSString → NetEvent) (fuel : Nat)
    (imageUrl filepath : JSString) (fs : FileSystem) (statusCode : Nat)
    (location : Option JSString) (stream : StreamEnd)
    (hwiki : includes imageUrl (lit "commons.wikimedia.org/wiki/File:") = false)
    (hnet : net imageUrl = NetEvent.response statusCode location stream)
    (hredirect : ¬ ((statusCode = 301 ∨ statusCode = 302 ∨ statusCode = 307) ∧
      hasLocation location = true))
    (hs : statusCode ≠ 200) :
    downloadImage net (fuel + 1) imageUrl filepath fs =
      some ({ skipped := false, success := false, status := some statusCode,
              reason := none, error := none, url := some imageUrl, size := none },
            unlink (writeFile fs filepath []) filepath) := by
  simp only [downloadImage, hwiki, hnet, Bool.false_eq_true, if_false, if_neg hredirect,
    if_pos hs]

theorem downloadImage_of_empty (net : JSString → NetEvent) (fuel : Nat)
    (imageUrl filepath : JSString) (fs : FileSystem) (location : Option JSString)
    (hwiki : includes imageUrl (lit "commons.wikimedia.org/wiki/File:") = false)
    (hnet : net imageUrl = NetEvent.response 200 location (StreamEnd.finish [])) :
    downloadImage net (fuel + 1) imageUrl filepath fs =
      some ({ skipped := false, success := false, status := none,
              reason := some (lit "Empty file"), error := none,
              url := some imageUrl, size := none },
            unlink (writeFile (writeFile fs filepath []) filepath []) filepath) := by
  have hst : statSize (writeFile (writeFile fs filepath []) filepath []) filepath =
      some 0 := by
    simp [statSize, writeFile]
  simp only [downloadImage, hwiki, hnet, Bool.false_eq_true, if_false, hst]
  simp

theorem downloadImage_of_bytes (net : JSString → NetEvent) (fuel : Nat)
    (imageUrl filepath : JSString) (fs : FileSystem) (location : Option JSString)
    (written : List Nat) (n : Nat) (hn : written.length = n + 1)
    (hwiki : includes imageUrl (lit "commons.wikimedia.org/wiki/File:") = false)
    (hnet : net imageUrl = NetEvent.response 200 location (StreamEnd.finish written)) :
    downloadImage net (fuel + 1) imageUrl filepath fs =
      some ({ skipped := false, success := true, status := none, reason := none,
              error := none, url := some imageUrl, size := some (n + 1) },
            writeFile (writeFile fs filepath []) filepath written) := by
  have hst : statSize (writeFile (writeFile fs filepath []) filepath written) filepath =
      some (n + 1) := by
    simp [statSize, writeFile, hn]
  simp only [downloadImage, hwiki, hnet, Bool.false_eq_true, if_false, hst]
  simp

/-- Claim C9.  For a URL that is not a wiki page, whose request gets a response
that is not a followed redirect: a status other than 200 gives a failure that
carries the status, and no file is left at the destination; a status of 200 whose
written file is empty gives the failure `Empty file`, and no file is left at the
destination; a status of 200 whose written file is not empty gives a success whose
size is the number of bytes written, which are the file at the destination.  The
other files are as before. -/
theorem downloadImage_outcome_of_response (net : JSString → NetEvent) (fuel : Nat)
    (imageUrl filepath : JSString) (fs : FileSystem) (statusCode : Nat)
    (location : Option JSString) (stream : StreamEnd)
    (hwiki : includes imageUrl (lit "commons.wikimedia.org/wiki/File:") = false)
    (hnet : net imageUrl = NetEvent.response statusCode location stream)
    (hredirect : ¬ ((statusCode = 301 ∨ statusCode = 302 ∨ statusCode = 307) ∧
      hasLocation location = true)) :
    (statusCode ≠ 200 →
      ∃ r fs', downloadImage net (fuel + 1) imageUrl filepath fs = some (r, fs') ∧
        r.skipped = false ∧ r.success = false ∧ r.status = some statusCode ∧
        fs' filepath = none ∧ ∀ q, q ≠ filepath → fs' q = fs q) ∧
    (statusCode = 200 → ∀ written, stream = StreamEnd.finish written →
      (written.length = 0 →
        ∃ r fs', downloadImage net (fuel + 1) imageUrl filepath fs = some (r, fs') ∧
          r.skipped = false ∧ r.success = false ∧ r.reason = some (lit "Empty file") ∧
          fs' filepath = none ∧ ∀ q, q ≠ filepath → fs' q = fs q) ∧
      (written.length ≠ 0 →
        ∃ r fs', downloadImage net (fuel + 1) imageUrl filepath fs = some (r, fs') ∧
          r.skipped = false ∧ r.success = true ∧ r.size = some written.length ∧
          fs' filepath = some written ∧ statSize fs' filepath = r.size ∧
          ∀ q, q ≠ filepath → fs' q = fs q)) := by
  constructor
  · intro hs
    refine ⟨_, _, downloadImage_of_status net fuel imageUrl filepath fs statusCode location
      stream hwiki hnet hredirect hs, rfl, rfl, rfl, ?_, ?_⟩
    · simp [unlink]
    · intro q hq
      simp [unlink, writeFile, hq]
  · intro hs written hw
    subst hs
    subst hw
    constructor
    · intro hlen
      have hnil : written = [] := List.length_eq_zero.1 hlen
      subst hnil
      refine ⟨_, _, downloadImage_of_empty net fuel imageUrl filepath fs location hwiki hnet,
        rfl, rfl, rfl, ?_, ?_⟩
      · simp [unlink]
      · intro q hq
        simp [unlink, writeFile, hq]
    · intro hlen
      obtain ⟨n, hn⟩ : ∃ n, written.length = n + 1 := ⟨written.length - 1, by omega⟩
      refine ⟨_, _, downloadImage_of_bytes net fuel imageUrl filepath fs location written n hn
        hwiki hnet, rfl, rfl, ?_, ?_, ?_, ?_⟩
      · simp [hn]
      · simp [writeFile]
      · simp [statSize, writeFile, hn]
      · intro q hq
        simp [writeFile, hq]

/-- A request to `https://site/a.jpg` answered with status 200 and three bytes:
the download succeeds with size 3 and the destination holds the three bytes; the
same request answered with status 404 has the status in its failure. -/
theorem downloadImage_outcome_of_response_witness :
    (∃ r fs', downloadImage
        (fun _ => NetEvent.response 200 none (StreamEnd.finish [255, 216, 255])) 1
        (lit "https://site/a.jpg") (lit "/out/a.jpg") (fun _ => none) = some (r, fs') ∧
      r.skipped = false ∧ r.success = true ∧ r.size = some 3 ∧
      fs' (lit "/out/a.jpg") = some [255, 216, 255]) ∧
    (∃ r fs', downloadImage
        (fun _ => NetEvent.response 404 none (StreamEnd.finish [])) 1
        (lit "https://site/a.jpg") (lit "/out/a.jpg") (fun _ => none) = some (r, fs') ∧
      r.skipped = false ∧ r.success = false ∧ r.status = some 404 ∧
      fs' (lit "/out/a.jpg") = none) := by
  constructor
  · obtain ⟨r, fs', h1, h2, h3, h4, h5, -⟩ :=
      (downloadImage_outcome_of_response
        (fun _ => NetEvent.response 200 none (StreamEnd.finish [255, 216, 255])) 0
        (lit "https://site/a.jpg") (lit "/out/a.jpg") (fun _ => none) 200 none
        (StreamEnd.finish [255, 216, 255]) (by decide) rfl (by decide)).2 rfl
        [255, 216, 255] rfl |>.2 (by decide)
    exact ⟨r, fs', h1, h2, h3, h4, h5⟩
  · obtain ⟨r, fs', h1, h2, h3, h4, h5, -⟩ :=
      (downloadImage_outcome_of_response
        (fun _ => NetEvent.response 404 none (StreamEnd.finish [])) 0
        (lit "https://site/a.jpg") (lit "/out/a.jpg") (fun _ => none) 404 none
        (StreamEnd.finish []) (by decide) rfl (by decide)).1 (by decide)
    exact ⟨r, fs', h1, h2, h3, h4, h5⟩

end DownloadImages
